import Mathlib

/-
  Verification of the unused-file finder (src/index.ts).

  The embedding works over plain Lean strings and lists.  JavaScript string
  operations are re-implemented structurally over `List Char` so that all
  definitions are executable and kernel-reducible:
    * `occursIn`   models  String.prototype.includes (substring test),
    * `leadMatch`  models  String.prototype.startsWith,
    * `tailMatch`  models  String.prototype.endsWith,
    * `basenameStr`, `dirnameStr`, `extnameOf` model Node's path.basename,
      path.dirname and path.extname for the slash-separated, no-trailing-slash
      paths the tool constructs (ASCII; exotic edge cases such as paths ending
      in a slash never arise because paths are built by joining readdir entry
      names).
-/

/-- `leadMatch pre cs` : `pre` is a leading segment of `cs` (startsWith). -/
def leadMatch : List Char → List Char → Bool
  | [], _ => true
  | _ :: _, [] => false
  | a :: as, b :: bs => a == b && leadMatch as bs

/-- `occursIn needle hay` : `needle` occurs contiguously inside `hay`;
the empty needle occurs everywhere, matching JS `includes`. -/
def occursIn (needle : List Char) : List Char → Bool
  | [] => leadMatch needle []
  | c :: rest => leadMatch needle (c :: rest) || occursIn needle rest

/-- JS `hay.includes(needle)` on strings. -/
def strIncludes (hay needle : String) : Bool :=
  occursIn needle.data hay.data

/-- `tailMatch cs suf` : `suf` is a trailing segment of `cs` (endsWith). -/
def tailMatch (cs suf : List Char) : Bool :=
  leadMatch suf.reverse cs.reverse

/-- JS `s.startsWith(pre)`. -/
def strStartsWith (s pre : String) : Bool :=
  leadMatch pre.data s.data

/-- JS `s.endsWith(suf)`. -/
def strEndsWith (s suf : String) : Bool :=
  tailMatch s.data suf.data

/-- ASCII lower-casing, modelling `toLowerCase()` on the ASCII extension
strings the tool feeds it. -/
def strToLower (s : String) : String :=
  String.mk (s.data.map Char.toLower)

/-- Characters of the current (last) path segment: accumulator is reset at
every slash.  Implements Node `path.basename` for slash-free-tail paths. -/
def bnAux (cur : List Char) : List Char → List Char
  | [] => cur
  | c :: rest => if c == '/' then bnAux [] rest else bnAux (cur ++ [c]) rest

/-- Node `path.basename(p)` (no trailing slashes, as produced by `join`). -/
def basenameStr (p : String) : String :=
  String.mk (bnAux [] p.data)

/-- Node `path.dirname(p)` : everything before the last slash; `"."` when the
path has no slash, `"/"` when the only slash is leading. -/
def dirnameStr (p : String) : String :=
  match (p.data.reverse).dropWhile (fun c => !(c == '/')) with
  | [] => "."
  | _ :: tail => if tail.isEmpty then "/" else String.mk tail.reverse

/-- The suffix of `cs` starting at its last dot (dot included), if any. -/
def afterLastDot : List Char → Option (List Char)
  | [] => none
  | c :: rest =>
    match afterLastDot rest with
    | some s => some s
    | none => if c == '.' then some (c :: rest) else none

/-- Extension characters of a base name given as characters: the suffix from
the last dot, except that a dot in position zero does not start an
extension. -/
def extnameData : List Char → List Char
  | [] => []
  | _ :: rest =>
    match afterLastDot rest with
    | some s => s
    | none => []

/-- Node `path.extname` on a base name. -/
def extnameOf (b : String) : String :=
  String.mk (extnameData b.data)

/-- Node `path.extname(p)`: the extension of the path's base name. -/
def extnameStr (p : String) : String :=
  extnameOf (basenameStr p)

/-- `basename(file, extname(file))` from the source: the base name with its
extension stripped. -/
def baseNoExt (p : String) : String :=
  let b := basenameStr p
  String.mk (b.data.take (b.data.length - (extnameOf b).data.length))

/- ──────────────────  the NEXTJS_PATTERNS constant tables  ────────────────── -/

/-- `NEXTJS_PATTERNS.criticalFiles` from the source. -/
def criticalFiles : List String :=
  ["layout.tsx", "page.tsx", "loading.tsx", "error.tsx", "not-found.tsx",
   "route.ts", "middleware.ts", "robots.ts", "sitemap.ts", "manifest.ts",
   "global.d.ts", "globals.css", "analytics.ts", "metadata.ts", "schema.js"]

/-- `NEXTJS_PATTERNS.specialDirs` from the source (declared there, never read
by any of the decision procedures). -/
def specialDirs : List String :=
  ["api", "app", "_components", "utils", "lib", "hooks", "contexts"]

/-- `NEXTJS_PATTERNS.ignoredPaths` from the source. -/
def ignoredPaths : List String :=
  ["node_modules", ".next", "dist", ".git", ".husky",
   "public/chunks", "public/static"]

/-- `NEXTJS_PATTERNS.mediaExtensions` from the source. -/
def mediaExtensions : List String :=
  [".jpg", ".jpeg", ".png", ".gif", ".svg", ".webp", ".ico",
   ".mp4", ".webm", ".m4s", ".mp3", ".wav", ".ogg"]

/-- `NEXTJS_PATTERNS.codeExtensions` from the source. -/
def codeExtensions : List String :=
  [".ts", ".tsx", ".js", ".jsx", ".css", ".scss", ".sass", ".less"]

/- ──────────────────────────  the Classifier  ────────────────────────── -/

/-- `isNextJsSystemFile` from the source: base name in the critical set, or a
path containing an `/api/` segment, or a `page.`-prefixed name directly under
a directory named `app`. -/
def isNextJsSystemFile (filePath : String) : Bool :=
  let fileName := basenameStr filePath
  let dirName := basenameStr (dirnameStr filePath)
  if criticalFiles.contains fileName then true
  else if strIncludes filePath "/api/" then true
  else if dirName == "app" && strStartsWith fileName "page." then true
  else false

inductive FileType where
  | media | component | util | type | hook | context | style | api | page
deriving DecidableEq, Repr

/-- The regex `/^[A-Z].*\.(tsx|jsx)$/` on a base name: an ASCII capital first
letter and a `.tsx`/`.jsx` tail after it. -/
def componentNameTest (fileName : String) : Bool :=
  match fileName.data with
  | [] => false
  | c :: rest => c.isUpper && (tailMatch rest ".tsx".data || tailMatch rest ".jsx".data)

/-- The regex `/^use[A-Z].*\.(ts|tsx)$/` on a base name. -/
def hookNameTest (fileName : String) : Bool :=
  match fileName.data with
  | 'u' :: 's' :: 'e' :: c :: rest =>
    c.isUpper && (tailMatch rest ".ts".data || tailMatch rest ".tsx".data)
  | _ => false

/-- The regex `/(Context|Provider)\.(ts|tsx)$/` on a base name. -/
def contextNameTest (fileName : String) : Bool :=
  strEndsWith fileName "Context.ts" || strEndsWith fileName "Context.tsx" ||
  strEndsWith fileName "Provider.ts" || strEndsWith fileName "Provider.tsx"

/-- The regex `/\.d\.ts$/` on a base name. -/
def typeNameTest (fileName : String) : Bool :=
  strEndsWith fileName ".d.ts"

/-- The regex `/\.(css|scss|sass|less)$/` on a base name. -/
def styleNameTest (fileName : String) : Bool :=
  strEndsWith fileName ".css" || strEndsWith fileName ".scss" ||
  strEndsWith fileName ".sass" || strEndsWith fileName ".less"

/-- `getFileType` from the source: the first-match-wins chain of category
checks, defaulting to `util`. -/
def getFileType (filePath : String) : FileType :=
  let fileName := basenameStr filePath
  let ext := strToLower (extnameStr filePath)
  if strIncludes filePath "/api/" then FileType.api
  else if strIncludes filePath "/app/" && strStartsWith fileName "page." then FileType.page
  else if mediaExtensions.contains ext then FileType.media
  else if componentNameTest fileName then FileType.component
  else if hookNameTest fileName then FileType.hook
  else if contextNameTest fileName then FileType.context
  else if typeNameTest fileName then FileType.type
  else if styleNameTest fileName then FileType.style
  else FileType.util

/- ─────────────  C1: critical files are used against any index  ───────────── -/

structure ImportInfo where
  imports : List String
  exports : List String
  content : String
  filePath : String
deriving DecidableEq, Repr

/- ─────────────  NEXTJS_PATTERNS.apiPatterns as explicit matchers  ─────────────

Each JavaScript regex is deterministic (every greedy sub-pattern is a character
class disjoint from the character that must follow it), so a matcher can be
written as a direct chain of checks.  A matcher takes the text at a candidate
start position and returns the length of the (unique) match there, if any. -/

def quoteChar : Char := Char.ofNat 39

def backquoteChar : Char := Char.ofNat 96

/-- The character class `['"`]` used by the api regexes. -/
def isQuoteChar (c : Char) : Bool :=
  c == quoteChar || c == '"' || c == backquoteChar

/-- Length of the maximal (greedy) run of class characters. -/
def takeWhileCnt (p : Char → Bool) : List Char → Nat
  | [] => 0
  | c :: rest => if p c then takeWhileCnt p rest + 1 else 0

def apiLit : List Char := "/api/".data

/-- The class `[a-zA-Z0-9-_/]` of the bare api-path regex. -/
def apiPathClass (c : Char) : Bool :=
  c.isAlpha || c.isDigit || c == '-' || c == '_' || c == '/'

/-- Matcher for `/fetch\(['"`]\/api\/([^'"`]+)['"`]\)/`. -/
def matchApi1 (cs : List Char) : Option Nat :=
  if leadMatch "fetch(".data cs then
    match cs.drop 6 with
    | q :: rest1 =>
      if isQuoteChar q && leadMatch apiLit rest1 then
        let rest2 := rest1.drop 5
        let k := takeWhileCnt (fun c => !(isQuoteChar c)) rest2
        if k == 0 then none
        else
          match rest2.drop k with
          | q2 :: close :: _ =>
            if isQuoteChar q2 && close == ')' then some (6 + 1 + 5 + k + 2) else none
          | _ => none
      else none
    | [] => none
  else none

/-- Matcher for `/axios\.[a-z]+\(['"`]\/api\/([^'"`]+)['"`]\)/`. -/
def matchApi2 (cs : List Char) : Option Nat :=
  if leadMatch "axios.".data cs then
    let j := takeWhileCnt Char.isLower (cs.drop 6)
    if j == 0 then none
    else
      match cs.drop (6 + j) with
      | paren :: q :: rest1 =>
        if paren == '(' && isQuoteChar q && leadMatch apiLit rest1 then
          let rest2 := rest1.drop 5
          let k := takeWhileCnt (fun c => !(isQuoteChar c)) rest2
          if k == 0 then none
          else
            match rest2.drop k with
            | q2 :: close :: _ =>
              if isQuoteChar q2 && close == ')' then some (6 + j + 2 + 5 + k + 2) else none
            | _ => none
        else none
      | _ => none
  else none

/-- Matcher for `/\/api\/([a-zA-Z0-9-_/]+)/`. -/
def matchApi3 (cs : List Char) : Option Nat :=
  if leadMatch apiLit cs then
    let k := takeWhileCnt apiPathClass (cs.drop 5)
    if k == 0 then none else some (5 + k)
  else none

/-- Global (`/g`-flag) scanning as done by `content.match(pattern)`: at each
position try the matcher; on a match of length `n` record it and resume after
its end, otherwise advance one character.  All matchers above only ever return
lengths `≥ 6`, for which the skip-counter formulation coincides with the
JavaScript resume-at-match-end behaviour. -/
def scanAllAux (m : List Char → Option Nat) : Nat → List Char → List (List Char)
  | _, [] => []
  | Nat.succ k, _ :: rest => scanAllAux m k rest
  | 0, c :: rest =>
    match m (c :: rest) with
    | some n => (c :: rest).take n :: scanAllAux m (n - 1) rest
    | none => scanAllAux m 0 rest

/-- `content.match(pattern)` with the `/g` flag: the list of matched
substrings (empty list standing for JavaScript's `null`). -/
def jsMatchAll (m : List Char → Option Nat) (content : String) : List (List Char) :=
  scanAllAux m 0 content.data

/-- `NEXTJS_PATTERNS.apiPatterns.some(pattern => { const matches =
content.match(pattern); return matches && matches.some(m =>
m.includes(apiPath)); })` from `isFileUsed`. -/
def apiPatternsHit (content : String) (apiPath : String) : Bool :=
  [matchApi1, matchApi2, matchApi3].any fun m =>
    (jsMatchAll m content).any fun mt => occursIn apiPath.data mt

/-- Remainder of `cs` after the first occurrence of the (non-empty) separator
`sep`; `none` when `sep` does not occur.  Models `s.split(sep)[1]`'s start. -/
def afterFirstOcc (sep : List Char) : List Char → Option (List Char)
  | [] => none
  | c :: rest =>
    if leadMatch sep (c :: rest) then some ((c :: rest).drop sep.length)
    else afterFirstOcc sep rest

/-- Leading segment of `cs` before the next occurrence of `sep`; together with
`afterFirstOcc` this yields element `[1]` of `s.split(sep)`. -/
def upToFirstOcc (sep : List Char) : List Char → List Char
  | [] => []
  | c :: rest => if leadMatch sep (c :: rest) then [] else c :: upToFirstOcc sep rest

/-- `replace(/\.[jt]s$/, "")`: strip a final `.js` or `.ts`. -/
def stripJsTs (s : String) : String :=
  if strEndsWith s ".js" || strEndsWith s ".ts" then
    String.mk (s.data.take (s.data.length - 3))
  else s

/-- The api branch body of `isFileUsed` (source lines 225–235):
`file.split("/api/")[1]` with a trailing `.js`/`.ts` stripped must be a
non-empty (truthy) string and one of the api patterns must produce a match in
the other file's content containing it. -/
def apiBranchHits (file : String) (otherContent : String) : Bool :=
  match afterFirstOcc "/api/".data file.data with
  | none => false
  | some rest =>
    let apiPath := stripJsTs (String.mk (upToFirstOcc "/api/".data rest))
    if apiPath == "" then false else apiPatternsHit otherContent apiPath

/-- The `for … of importMap.entries()` loop of `isFileUsed`: skip the file
itself, then break on the first of the three conditions (bare-name substring,
api pattern, media full-name substring) that fires. -/
def usedScan (file : String) : List ImportInfo → Bool
  | [] => false
  | other :: rest =>
    if other.filePath == file then usedScan file rest
    else if strIncludes other.content (baseNoExt file) then true
    else if strIncludes file "/api/" && apiBranchHits file other.content then true
    else if mediaExtensions.contains (strToLower (extnameStr file)) &&
            strIncludes other.content (basenameStr file) then true
    else usedScan file rest

/-- `isFileUsed` from the source: critical files short-circuit to used,
otherwise the index is scanned. -/
def isFileUsed (file : String) (importMap : List ImportInfo) : Bool :=
  if isNextJsSystemFile file then true
  else usedScan file importMap

/-- `isFileUsed`'s scan with the api-pattern branch removed (for the
refinement claim that the branch is dead code). -/
def usedScanNoApi (file : String) : List ImportInfo → Bool
  | [] => false
  | other :: rest =>
    if other.filePath == file then usedScanNoApi file rest
    else if strIncludes other.content (baseNoExt file) then true
    else if mediaExtensions.contains (strToLower (extnameStr file)) &&
            strIncludes other.content (basenameStr file) then true
    else usedScanNoApi file rest

/-- `isFileUsed` with the api-pattern branch removed. -/
def isFileUsedNoApi (file : String) (importMap : List ImportInfo) : Bool :=
  if isNextJsSystemFile file then true
  else usedScanNoApi file importMap

/-- The disjunction of the three per-candidate break conditions of the scan. -/
def usedHit (file : String) (other : ImportInfo) : Bool :=
  strIncludes other.content (baseNoExt file) ||
  (strIncludes file "/api/" && apiBranchHits file other.content) ||
  (mediaExtensions.contains (strToLower (extnameStr file)) &&
   strIncludes other.content (basenameStr file))

/- ──────────  the classifier restated as a first-match rule table  ──────────

This second definition follows the specification's words for §4.2 (checks
applied in the order api, page, media, component, hook, context, type, style,
first match wins, `util` as the fallback), to be compared with `getFileType`,
which is translated from the source. -/

def classifierRules : List ((String → Bool) × FileType) :=
  [(fun p => strIncludes p "/api/", FileType.api),
   (fun p => strIncludes p "/app/" && strStartsWith (basenameStr p) "page.", FileType.page),
   (fun p => mediaExtensions.contains (strToLower (extnameStr p)), FileType.media),
   (fun p => componentNameTest (basenameStr p), FileType.component),
   (fun p => hookNameTest (basenameStr p), FileType.hook),
   (fun p => contextNameTest (basenameStr p), FileType.context),
   (fun p => typeNameTest (basenameStr p), FileType.type),
   (fun p => styleNameTest (basenameStr p), FileType.style)]

/-- First rule whose predicate accepts the path wins; `util` if none does. -/
def firstMatchType : List ((String → Bool) × FileType) → String → FileType
  | [], _ => FileType.util
  | r :: rest, p => if r.1 p then r.2 else firstMatchType rest p

/- ─────────────────  findImports: the import-extraction regexes  ─────────────────

The four patterns of `findImports` are again deterministic regexes, modelled
as matchers returning match length and the text of capture group 1.  The
regex classes backslash-s and backslash-w are modelled by
`Char.isWhitespace` and ASCII word characters (the Unicode extras of the
whitespace class cannot occur in the escape-free statements the patterns
aim at). -/

def braceOpen : Char := Char.ofNat 123

def braceClose : Char := Char.ofNat 125

/-- The class `['"]` (the import regexes use no backtick). -/
def importQuote (c : Char) : Bool := c == quoteChar || c == '"'

/-- The class `\w`. -/
def isWordChar (c : Char) : Bool := c.isAlpha || c.isDigit || c == '_'

/-- Matcher for `/import\s+(?:{[\s\w,]+}|\w+)\s+from\s+['"]([^'"]+)['"]/`. -/
def matchImportFrom (cs : List Char) : Option (Nat × List Char) :=
  if leadMatch "import".data cs then
    let r0 := cs.drop 6
    let a := takeWhileCnt Char.isWhitespace r0
    if a == 0 then none
    else
      let r1 := r0.drop a
      let binderLen : Option Nat :=
        match r1 with
        | c :: r2 =>
          if c == braceOpen then
            let b := takeWhileCnt
              (fun d => d.isWhitespace || isWordChar d || d == ',') r2
            if b == 0 then none
            else
              match r2.drop b with
              | d :: _ => if d == braceClose then some (1 + b + 1) else none
              | [] => none
          else
            let w := takeWhileCnt isWordChar r1
            if w == 0 then none else some w
        | [] => none
      match binderLen with
      | none => none
      | some bl =>
        let r3 := r1.drop bl
        let d1 := takeWhileCnt Char.isWhitespace r3
        if d1 == 0 then none
        else
          let r4 := r3.drop d1
          if leadMatch "from".data r4 then
            let r5 := r4.drop 4
            let d2 := takeWhileCnt Char.isWhitespace r5
            if d2 == 0 then none
            else
              match r5.drop d2 with
              | q :: r6 =>
                if importQuote q then
                  let k := takeWhileCnt (fun d => !(importQuote d)) r6
                  if k == 0 then none
                  else
                    match r6.drop k with
                    | q2 :: _ =>
                      if importQuote q2 then
                        some (6 + a + bl + d1 + 4 + d2 + 1 + k + 1, r6.take k)
                      else none
                    | [] => none
                else none
              | [] => none
          else none
  else none

/-- Matcher for `/import\(['"]([^'"]+)['"]\)/`. -/
def matchImportCall (cs : List Char) : Option (Nat × List Char) :=
  if leadMatch "import(".data cs then
    match cs.drop 7 with
    | q :: r1 =>
      if importQuote q then
        let k := takeWhileCnt (fun d => !(importQuote d)) r1
        if k == 0 then none
        else
          match r1.drop k with
          | q2 :: close :: _ =>
            if importQuote q2 && close == ')' then some (7 + 1 + k + 2, r1.take k)
            else none
          | _ => none
      else none
    | [] => none
  else none

/-- Matcher for `/require\(['"]([^'"]+)['"]\)/`. -/
def matchRequire (cs : List Char) : Option (Nat × List Char) :=
  if leadMatch "require(".data cs then
    match cs.drop 8 with
    | q :: r1 =>
      if importQuote q then
        let k := takeWhileCnt (fun d => !(importQuote d)) r1
        if k == 0 then none
        else
          match r1.drop k with
          | q2 :: close :: _ =>
            if importQuote q2 && close == ')' then some (8 + 1 + k + 2, r1.take k)
            else none
          | _ => none
      else none
    | [] => none
  else none

/-- Matcher for `/dynamic\([^)]+['"]\)/`: after backtracking of the greedy
`[^)]+`, this matches exactly when the run up to the first `)` has length at
least two and ends in a quote.  The regex has no capture group, so `match[1]`
is undefined (falsy); the empty capture returned here is rejected by the same
`startsWith(".")` check in `findImports`. -/
def matchDynamic (cs : List Char) : Option (Nat × List Char) :=
  if leadMatch "dynamic(".data cs then
    let r1 := cs.drop 8
    let k := takeWhileCnt (fun d => !(d == ')')) r1
    if k < 2 then none
    else
      match r1.drop k with
      | close :: _ =>
        if close == ')' && importQuote (r1.getD (k - 1) ' ') then some (8 + k + 1, [])
        else none
      | [] => none
  else none

/-- Global scanning collecting capture group 1 of every match (the
`while ((match = pattern.exec(content)) !== null)` loop). -/
def scanAllCapAux (m : List Char → Option (Nat × List Char)) :
    Nat → List Char → List (List Char)
  | _, [] => []
  | Nat.succ k, _ :: rest => scanAllCapAux m k rest
  | 0, c :: rest =>
    match m (c :: rest) with
    | some (n, cap) => cap :: scanAllCapAux m (n - 1) rest
    | none => scanAllCapAux m 0 rest

/-- All capture-group-1 strings of a pattern over the content. -/
def jsCaptures (m : List Char → Option (Nat × List Char)) (content : String) :
    List String :=
  (scanAllCapAux m 0 content.data).map String.mk

/-- `replace(/\.(js|jsx|ts|tsx)$/, "")`: strip one trailing code extension. -/
def stripCodeExt (s : String) : String :=
  if strEndsWith s ".jsx" || strEndsWith s ".tsx" then
    String.mk (s.data.take (s.data.length - 4))
  else if strEndsWith s ".js" || strEndsWith s ".ts" then
    String.mk (s.data.take (s.data.length - 3))
  else s

/-- `Set<string>` insertion. -/
def addToSet (s : List String) (t : String) : List String :=
  if s.contains t then s else s ++ [t]

/-- `findImports` from the source: run the four patterns over the content and
keep every capture that starts with a relative-path marker, in raw and
extension-stripped form. -/
def findImports (content : String) : List String :=
  let captures :=
    jsCaptures matchImportFrom content ++ jsCaptures matchImportCall content ++
    jsCaptures matchRequire content ++ jsCaptures matchDynamic content
  captures.foldl
    (fun s c =>
      if strStartsWith c "." then addToSet (addToSet s c) (stripCodeExt c) else s)
    []

/- ─────────────────────  the findUnusedFiles pipeline  ─────────────────────

The filesystem interactions of `findUnusedFiles` are captured by records that
carry the outcome of the run's `readFileSync` (for indexing) and `statSync`
(at decision time) calls: `none` models the call throwing. -/

structure SrcFileFs where
  path : String
  readResult : Option String
  statSize : Option Nat
deriving DecidableEq, Repr

structure PubFileFs where
  path : String
  statSize : Option Nat
deriving DecidableEq, Repr

structure UnusedFile where
  path : String
  size : Nat
  type : FileType
deriving DecidableEq, Repr

/-- `allFiles.filter(file => NEXTJS_PATTERNS.codeExtensions.has(extname(file).toLowerCase()))`. -/
def sourceFilter (files : List SrcFileFs) : List SrcFileFs :=
  files.filter fun f => codeExtensions.contains (strToLower (extnameStr f.path))

/-- The indexing loop: read each source file, catching per-file errors by
skipping the file. -/
def buildImportMap (files : List SrcFileFs) : List ImportInfo :=
  files.filterMap fun f =>
    f.readResult.map fun content => ⟨findImports content, [], content, f.path⟩

/-- One iteration of the source-file report loop: an unused file is recorded
with its stat size, and a stat error drops the file. -/
def sourceVerdict (importMap : List ImportInfo) (f : SrcFileFs) : Option UnusedFile :=
  if isFileUsed f.path importMap then none
  else f.statSize.map fun sz => ⟨f.path, sz, getFileType f.path⟩

/-- The source-file report loop. -/
def unusedSourceFiles (files : List SrcFileFs) (importMap : List ImportInfo) :
    List UnusedFile :=
  files.filterMap (sourceVerdict importMap)

/-- The always-used public names skipped by the public loop. -/
def publicExcluded (fileName : String) : Bool :=
  fileName == "robots.txt" || fileName == "sitemap.xml" ||
  strIncludes fileName "segment_" || strEndsWith fileName ".m4s"

/-- One iteration of the public-file report loop: skip excluded names, then
the full base name (extension included) is searched in every indexed
content. -/
def publicVerdict (importMap : List ImportInfo) (f : PubFileFs) : Option UnusedFile :=
  let fileName := basenameStr f.path
  if publicExcluded fileName then none
  else if importMap.any (fun info => strIncludes info.content fileName) then none
  else f.statSize.map fun sz => ⟨f.path, sz, FileType.media⟩

/-- The public-file report loop. -/
def unusedPublicFiles (files : List PubFileFs) (importMap : List ImportInfo) :
    List UnusedFile :=
  files.filterMap (publicVerdict importMap)

/-- `findUnusedFiles` without its rendering: filter the enumerated source
files by extension, index them, then collect unused source files followed by
unused public files. -/
def findUnusedFilesRun (srcFiles : List SrcFileFs) (pubFiles : List PubFileFs) :
    List UnusedFile :=
  let sourceFiles := sourceFilter srcFiles
  let importMap := buildImportMap sourceFiles
  unusedSourceFiles sourceFiles importMap ++ unusedPublicFiles pubFiles importMap

/- ─────────────────────  getAllFiles: directory traversal  ───────────────────── -/

/-- A directory tree: what `readdirSync`/`statSync.isDirectory` reveal. -/
inductive FsEntry : Type where
  | file : String → FsEntry
  | dir : String → List FsEntry → FsEntry

/-- `getAllFiles` from the source, applied to a directory's entries: an entry
whose single readdir name is in `ignoredPaths` is skipped (`continue`), files
are collected, directories are recursed into with `join(dir, item)`. -/
def getAllFilesFrom (dir : String) : List FsEntry → List String
  | [] => []
  | FsEntry.file n :: rest =>
    if ignoredPaths.contains n then getAllFilesFrom dir rest
    else (dir ++ "/" ++ n) :: getAllFilesFrom dir rest
  | FsEntry.dir n children :: rest =>
    if ignoredPaths.contains n then getAllFilesFrom dir rest
    else getAllFilesFrom (dir ++ "/" ++ n) children ++ getAllFilesFrom dir rest

theorem ite_bool_true_or (b x : Bool) : (if b = true then true else x) = (b || x) := by
  cases b <;> simp

/-- The break-on-first-hit loop computes an existential over the index. -/
theorem usedScan_eq_any (file : String) (l : List ImportInfo) :
    usedScan file l = l.any fun o => !(o.filePath == file) && usedHit file o := by
  induction l with
  | nil => rfl
  | cons o rest ih =>
    simp only [usedScan, List.any_cons]
    cases hskip : o.filePath == file with
    | true => simp [hskip, ih]
    | false =>
      simp only [hskip, Bool.false_eq_true, if_false, ite_bool_true_or, usedHit,
        Bool.not_false, Bool.true_and, ih, Bool.or_assoc]


/-- A permutation of a list leaves `List.any` unchanged. -/
theorem list_any_perm {α : Type} (p : α → Bool) {l1 l2 : List α}
    (h : l1.Perm l2) : l1.any p = l2.any p := by
  cases h1 : l1.any p <;> cases h2 : l2.any p <;> try rfl
  · rcases List.any_eq_true.mp h2 with ⟨a, ha, hpa⟩
    exact absurd (List.any_eq_true.mpr ⟨a, h.mem_iff.mpr ha, hpa⟩) (by simp [h1])
  · rcases List.any_eq_true.mp h1 with ⟨a, ha, hpa⟩
    exact absurd (List.any_eq_true.mpr ⟨a, h.mem_iff.mp ha, hpa⟩) (by simp [h2])

/-- C1: every path satisfying a critical-file rule (base name in the fixed
framework-reserved set, an `/api/` segment in the path, or a `page.`-prefixed
name directly under a directory named `app`, i.e. `isNextJsSystemFile`) is
reported used by `isFileUsed` against every index — in particular against the
empty index, the verdict not depending on any other file's content. -/
theorem critical_files_always_used (p : String)
    (h : isNextJsSystemFile p = true) (idx : List ImportInfo) :
    isFileUsed p idx = true := by
  simp [isFileUsed, h]

theorem critical_files_always_used_witness :
    isNextJsSystemFile "src/app/layout.tsx" = true ∧
    isFileUsed "src/app/layout.tsx" [] = true :=
  ⟨rfl, critical_files_always_used "src/app/layout.tsx" rfl []⟩

/-- C2: (a) whenever the index holds two records `A` and `B` at distinct paths
and `B`'s raw content contains `A`'s extension-stripped base name as a
substring, `isFileUsed` reports `A` used; (b) a file that is not critical,
whose extension-stripped base name occurs in no other record's content, for
which the api-pattern condition fires on no other record, and whose full base
name (relevant when its extension is a media extension) occurs in no other
record's content, is reported unused. -/
theorem substring_match_decides_usage :
    (∀ (idx : List ImportInfo) (A B : ImportInfo), A ∈ idx → B ∈ idx →
       B.filePath ≠ A.filePath →
       strIncludes B.content (baseNoExt A.filePath) = true →
       isFileUsed A.filePath idx = true) ∧
    (∀ (idx : List ImportInfo) (f : String),
       isNextJsSystemFile f = false →
       (∀ r ∈ idx, r.filePath ≠ f → strIncludes r.content (baseNoExt f) = false) →
       (∀ r ∈ idx, r.filePath ≠ f →
          (strIncludes f "/api/" && apiBranchHits f r.content) = false) →
       (∀ r ∈ idx, r.filePath ≠ f →
          (mediaExtensions.contains (strToLower (extnameStr f)) &&
           strIncludes r.content (basenameStr f)) = false) →
       isFileUsed f idx = false) := by
  constructor
  · intro idx A B _hA hB hne hsub
    by_cases hc : isNextJsSystemFile A.filePath = true
    · simp [isFileUsed, hc]
    · simp only [isFileUsed, if_neg hc, usedScan_eq_any]
      exact List.any_eq_true.mpr ⟨B, hB, by simp [usedHit, beq_iff_eq, hne, hsub]⟩
  · intro idx f hcrit h1 h2 h3
    simp only [isFileUsed, hcrit, Bool.false_eq_true, if_false, usedScan_eq_any]
    rw [List.any_eq_false]
    intro r hr
    by_cases hp : r.filePath = f
    · simp [hp]
    · have ha := h1 r hr hp
      have hb := h2 r hr hp
      have hc := h3 r hr hp
      simp only [usedHit]
      rw [ha, hb, hc]
      simp

theorem substring_match_decides_usage_witness :
    isFileUsed "src/components/Button.tsx"
      [⟨[], [], "export default 1", "src/components/Button.tsx"⟩,
       ⟨[], [], "<Button />", "src/views/Home.tsx"⟩] = true ∧
    isFileUsed "src/orphan.ts"
      [⟨[], [], "nothing here", "src/other.ts"⟩,
       ⟨[], [], "export default 2", "src/orphan.ts"⟩] = false :=
  ⟨substring_match_decides_usage.1
      [⟨[], [], "export default 1", "src/components/Button.tsx"⟩,
       ⟨[], [], "<Button />", "src/views/Home.tsx"⟩]
      (⟨[], [], "export default 1", "src/components/Button.tsx"⟩ : ImportInfo)
      (⟨[], [], "<Button />", "src/views/Home.tsx"⟩ : ImportInfo)
      (by decide) (by decide) (by decide) (by decide),
   substring_match_decides_usage.2
      [⟨[], [], "nothing here", "src/other.ts"⟩,
       ⟨[], [], "export default 2", "src/orphan.ts"⟩]
      "src/orphan.ts" (by decide) (by decide) (by decide) (by decide)⟩

/-- C6: the verdict of `isFileUsed` is invariant under permuting the index:
only which records are present matters, not their order. -/
theorem verdict_order_invariant (f : String) (idx1 idx2 : List ImportInfo)
    (h : idx1.Perm idx2) : isFileUsed f idx1 = isFileUsed f idx2 := by
  by_cases hc : isNextJsSystemFile f = true
  · simp [isFileUsed, hc]
  · simp only [isFileUsed, if_neg hc, usedScan_eq_any]
    exact list_any_perm _ h

theorem verdict_order_invariant_witness :
    isFileUsed "src/lonely.ts"
      [⟨[], [], "alpha", "src/x.ts"⟩, ⟨[], [], "beta lonely", "src/y.ts"⟩] =
    isFileUsed "src/lonely.ts"
      [⟨[], [], "beta lonely", "src/y.ts"⟩, ⟨[], [], "alpha", "src/x.ts"⟩] :=
  verdict_order_invariant "src/lonely.ts" _ _
    (List.Perm.swap (⟨[], [], "beta lonely", "src/y.ts"⟩ : ImportInfo)
      (⟨[], [], "alpha", "src/x.ts"⟩ : ImportInfo) [])

/-- A path containing an `/api/` segment is always a critical file. -/
theorem api_in_path_critical (f : String)
    (h : strIncludes f "/api/" = true) : isNextJsSystemFile f = true := by
  simp [isNextJsSystemFile, h]

/-- C9: the api-pattern branch of `isFileUsed` is dead code: every path it
could fire for is already accepted by the critical-file short-circuit, so
`isFileUsed` coincides extensionally with the same function with the branch
removed. -/
theorem api_branch_is_dead (f : String) (idx : List ImportInfo) :
    isFileUsed f idx = isFileUsedNoApi f idx := by
  by_cases hc : isNextJsSystemFile f = true
  · simp [isFileUsed, isFileUsedNoApi, hc]
  · have hapi : strIncludes f "/api/" = false := by
      cases h : strIncludes f "/api/"
      · rfl
      · exact absurd (api_in_path_critical f h) hc
    simp only [isFileUsed, isFileUsedNoApi, if_neg hc]
    induction idx with
    | nil => rfl
    | cons o rest ih => simp [usedScan, usedScanNoApi, hapi, ih]

/-- C10: `isFileUsed` never reads the extracted import-target sets: two
indexes whose records agree pointwise on path and raw content (but may carry
arbitrarily different `imports`/`exports` sets) yield the same verdict for
every file. -/
theorem verdict_ignores_import_sets (f : String) (idx1 idx2 : List ImportInfo)
    (h : List.Forall₂
      (fun a b => a.filePath = b.filePath ∧ a.content = b.content) idx1 idx2) :
    isFileUsed f idx1 = isFileUsed f idx2 := by
  by_cases hc : isNextJsSystemFile f = true
  · simp [isFileUsed, hc]
  · simp only [isFileUsed, if_neg hc]
    induction h with
    | nil => rfl
    | cons hab _hrest ih =>
      obtain ⟨hp, hcnt⟩ := hab
      simp [usedScan, hp, hcnt, ih]

theorem verdict_ignores_import_sets_witness :
    isFileUsed "src/solo.ts" [⟨["./dep", "./dep.ts"], [], "text", "src/z.ts"⟩] =
    isFileUsed "src/solo.ts" [⟨[], ["whatever"], "text", "src/z.ts"⟩] :=
  verdict_ignores_import_sets "src/solo.ts" _ _
    (List.Forall₂.cons ⟨rfl, rfl⟩ List.Forall₂.nil)

/-- Characterisation of `leadMatch` as list-prefix. -/
theorem leadMatch_iff (pre : List Char) : ∀ l, leadMatch pre l = true ↔ ∃ t, l = pre ++ t := by
  induction pre with
  | nil => intro l; simp [leadMatch]
  | cons a as ih =>
    intro l
    cases l with
    | nil => simp [leadMatch]
    | cons b bs =>
      simp only [leadMatch, Bool.and_eq_true, beq_iff_eq, ih bs]
      constructor
      · rintro ⟨hab, t, ht⟩
        exact ⟨t, by rw [hab, ht]; rfl⟩
      · rintro ⟨t, ht⟩
        rw [List.cons_append] at ht
        injection ht with h1 h2
        exact ⟨h1.symm, t, h2⟩

/-- Characterisation of `tailMatch` as list-suffix. -/
theorem tailMatch_iff (cs suf : List Char) :
    tailMatch cs suf = true ↔ ∃ xs, cs = xs ++ suf := by
  unfold tailMatch
  rw [leadMatch_iff]
  constructor
  · rintro ⟨t, ht⟩
    refine ⟨t.reverse, ?_⟩
    have := congrArg List.reverse ht
    simpa using this
  · rintro ⟨xs, rfl⟩
    exact ⟨xs.reverse, by simp⟩

/-- The last dot of a concatenation is the last dot of the right part, or else
the last dot of the left part followed by the right part. -/
theorem afterLastDot_append (xs ys : List Char) :
    afterLastDot (xs ++ ys) =
      match afterLastDot ys with
      | some s => some s
      | none => (afterLastDot xs).map (· ++ ys) := by
  induction xs with
  | nil =>
    cases h : afterLastDot ys <;> simp [h, afterLastDot]
  | cons x xs ih =>
    have step : afterLastDot ((x :: xs) ++ ys) =
        match afterLastDot (xs ++ ys) with
        | some s => some s
        | none => if x == '.' then some (x :: (xs ++ ys)) else none := rfl
    rw [step, ih]
    cases hys : afterLastDot ys <;> cases hxs : afterLastDot xs <;>
      simp [hys, hxs, afterLastDot]

/-- A base name with a code extension (after lower-casing) never ends in
`.m4s`. -/
theorem code_ext_no_m4s (p : String)
    (hcode : codeExtensions.contains (strToLower (extnameStr p)) = true) :
    strEndsWith (basenameStr p) ".m4s" = false := by
  cases h : strEndsWith (basenameStr p) ".m4s"
  · rfl
  · exfalso
    rcases (tailMatch_iff (basenameStr p).data ".m4s".data).mp h with ⟨xs, hb⟩
    cases xs with
    | nil =>
      rw [List.nil_append] at hb
      have hex : extnameData (basenameStr p).data = [] := by
        rw [hb]
        decide
      simp only [extnameStr, extnameOf, hex] at hcode
      exact absurd hcode (by decide)
    | cons y ys =>
      rw [List.cons_append] at hb
      have hdot : afterLastDot (ys ++ ".m4s".data) = some ".m4s".data := by
        rw [afterLastDot_append]
        have hm : afterLastDot ".m4s".data = some ".m4s".data := by decide
        rw [hm]
      have hex : extnameData (basenameStr p).data = ".m4s".data := by
        rw [hb]
        simp only [extnameData, hdot]
      simp only [extnameStr, extnameOf, hex] at hcode
      exact absurd hcode (by decide)

/-- Inversion of a successful `sourceVerdict`. -/
theorem sourceVerdict_some (idx : List ImportInfo) (f : SrcFileFs) (u : UnusedFile)
    (h : sourceVerdict idx f = some u) :
    isFileUsed f.path idx = false ∧ f.statSize = some u.size ∧
    u.path = f.path ∧ u.type = getFileType f.path := by
  unfold sourceVerdict at h
  split at h
  · simp at h
  · rcases Option.map_eq_some'.mp h with ⟨sz, hs, hg⟩
    subst hg
    rename_i hused
    exact ⟨by simpa using hused, hs, rfl, rfl⟩

/-- Inversion of a successful `publicVerdict`. -/
theorem publicVerdict_some (idx : List ImportInfo) (q : PubFileFs) (u : UnusedFile)
    (h : publicVerdict idx q = some u) :
    publicExcluded (basenameStr q.path) = false ∧
    (idx.any fun info => strIncludes info.content (basenameStr q.path)) = false ∧
    q.statSize = some u.size ∧ u.path = q.path ∧ u.type = FileType.media := by
  simp only [publicVerdict] at h
  split at h
  · simp at h
  · split at h
    · simp at h
    · rcases Option.map_eq_some'.mp h with ⟨sz, hs, hg⟩
      subst hg
      rename_i hexc hany
      exact ⟨by simpa using hexc, by simpa using hany, hs, rfl, rfl⟩

/-- C3 counterexample: in a run where `src/gone.ts` fails to read but its stat
succeeds, the file is absent from the Content Index yet still appears in the
reported unused set, contradicting the claim. -/
theorem read_failure_still_reported :
    (buildImportMap (sourceFilter
        [⟨"src/gone.ts", none, some 7⟩, ⟨"src/main.ts", some "hello world", some 3⟩])).all
      (fun r => !(r.filePath == "src/gone.ts")) = true ∧
    ((findUnusedFilesRun
        [⟨"src/gone.ts", none, some 7⟩, ⟨"src/main.ts", some "hello world", some 3⟩]
        []).map UnusedFile.path).contains "src/gone.ts" = true :=
  ⟨rfl, rfl⟩

/-- C3 amended: a source file whose read fails is excluded from the Content
Index, and one whose stat fails (at report time) is excluded from the final
report; the run is total in both cases.  Exclusion from the report is NOT
guaranteed for a read failure alone: a read-failed file with a successful
stat can still be reported (see the counterexample). -/
theorem read_stat_failure_policy (files : List SrcFileFs) (p : String) :
    ((∀ f ∈ files, f.path = p → f.readResult = none) →
       ∀ r ∈ buildImportMap (sourceFilter files), r.filePath ≠ p) ∧
    ((∀ f ∈ files, f.path = p → f.statSize = none) →
       ∀ u ∈ unusedSourceFiles (sourceFilter files) (buildImportMap (sourceFilter files)),
         u.path ≠ p) := by
  constructor
  · intro h r hr hrp
    rcases List.mem_filterMap.mp hr with ⟨f, hf, heq⟩
    rcases Option.map_eq_some'.mp heq with ⟨content, hread, hg⟩
    subst hg
    have hnone : f.readResult = none := h f (List.mem_of_mem_filter hf) hrp
    rw [hnone] at hread
    exact Option.noConfusion hread
  · intro h u hu hup
    rcases List.mem_filterMap.mp hu with ⟨f, hf, heq⟩
    obtain ⟨_, hstat, hpath, _⟩ := sourceVerdict_some _ _ _ heq
    have hnone : f.statSize = none := h f (List.mem_of_mem_filter hf) (by rw [← hup, hpath])
    rw [hnone] at hstat
    exact Option.noConfusion hstat

theorem read_stat_failure_policy_witness :
    (∀ r ∈ buildImportMap (sourceFilter
        [⟨"src/solo.ts", some "abc", some 3⟩, ⟨"src/bad.ts", none, none⟩]),
      r.filePath ≠ "src/bad.ts") ∧
    (∀ u ∈ unusedSourceFiles
        (sourceFilter [⟨"src/solo.ts", some "abc", some 3⟩, ⟨"src/bad.ts", none, none⟩])
        (buildImportMap (sourceFilter
          [⟨"src/solo.ts", some "abc", some 3⟩, ⟨"src/bad.ts", none, none⟩])),
      u.path ≠ "src/bad.ts") :=
  ⟨(read_stat_failure_policy
      [⟨"src/solo.ts", some "abc", some 3⟩, ⟨"src/bad.ts", none, none⟩]
      "src/bad.ts").1 (by decide),
   (read_stat_failure_policy
      [⟨"src/solo.ts", some "abc", some 3⟩, ⟨"src/bad.ts", none, none⟩]
      "src/bad.ts").2 (by decide)⟩

/-- C4 counterexample: the indexed content contains the asset's
extension-stripped base name (`logo`), so the claim deems `public/logo.png`
used, yet the public loop reports it unused because it searches for the full
base name `logo.png`. -/
theorem public_asset_stripped_name_mismatch :
    strIncludes "uses logo here" (baseNoExt "public/logo.png") = true ∧
    ((unusedPublicFiles [⟨"public/logo.png", some 4⟩]
        [⟨[], [], "uses logo here", "src/a.tsx"⟩]).map UnusedFile.path).contains
      "public/logo.png" = true :=
  ⟨rfl, rfl⟩

/-- C4 amended: a public asset that is not in the always-used exclusion list
and whose stat succeeds is reported unused exactly when NO indexed source
content contains the asset's FULL base name (extension included) as a
substring — the full name, not the extension-stripped name of rule (2a). -/
theorem public_asset_full_name_rule (pubs : List PubFileFs) (idx : List ImportInfo)
    (p : PubFileFs) (sz : Nat) (hmem : p ∈ pubs)
    (hexc : publicExcluded (basenameStr p.path) = false)
    (hstat : p.statSize = some sz) :
    ((⟨p.path, sz, FileType.media⟩ : UnusedFile) ∈ unusedPublicFiles pubs idx ↔
      ∀ r ∈ idx, strIncludes r.content (basenameStr p.path) = false) := by
  constructor
  · intro h
    rcases List.mem_filterMap.mp h with ⟨q, _, heq⟩
    obtain ⟨_, hany, _, hpath, _⟩ := publicVerdict_some _ _ _ heq
    have hqp : q.path = p.path := hpath.symm
    rw [hqp] at hany
    intro r hr
    simpa using List.any_eq_false.mp hany r hr
  · intro h
    apply List.mem_filterMap.mpr
    refine ⟨p, hmem, ?_⟩
    have hany : (idx.any fun info => strIncludes info.content (basenameStr p.path)) = false :=
      List.any_eq_false.mpr (fun r hr => by simp [h r hr])
    simp [publicVerdict, hexc, hany, hstat]

theorem public_asset_full_name_rule_witness :
    ((⟨"public/banner.png", 9, FileType.media⟩ : UnusedFile) ∈
        unusedPublicFiles [⟨"public/banner.png", some 9⟩]
          [⟨[], [], "no references", "src/b.ts"⟩] ↔
      ∀ r ∈ [(⟨[], [], "no references", "src/b.ts"⟩ : ImportInfo)],
        strIncludes r.content (basenameStr "public/banner.png") = false) :=
  public_asset_full_name_rule [⟨"public/banner.png", some 9⟩]
    [⟨[], [], "no references", "src/b.ts"⟩]
    ⟨"public/banner.png", some 9⟩ 9 (by decide) (by decide) rfl

/-- C5 counterexample: a SOURCE file whose name contains `segment_` is
reported unused when unreferenced — the exclusion list only guards the public
loop, so the claim's universal statement fails. -/
theorem segment_source_file_reported :
    strIncludes (basenameStr "src/segment_a.ts") "segment_" = true ∧
    ((findUnusedFilesRun [⟨"src/segment_a.ts", some "x", some 5⟩] []).map
      UnusedFile.path).contains "src/segment_a.ts" = true :=
  ⟨rfl, rfl⟩

/-- C5 amended: no file named `robots.txt` or `sitemap.xml` and no file ending
in `.m4s` is ever reported unused (public files by the exclusion list, source
files because those names cannot carry a code extension); but the `segment_`
exclusion only protects public files: a reported file whose name contains
`segment_` can exist and must come from the filtered source list. -/
theorem media_exclusion_scope (files : List SrcFileFs) (pubs : List PubFileFs)
    (u : UnusedFile) (hu : u ∈ findUnusedFilesRun files pubs) :
    basenameStr u.path ≠ "robots.txt" ∧ basenameStr u.path ≠ "sitemap.xml" ∧
    strEndsWith (basenameStr u.path) ".m4s" = false ∧
    (strIncludes (basenameStr u.path) "segment_" = true →
      ∃ f ∈ sourceFilter files, u.path = f.path) := by
  simp only [findUnusedFilesRun] at hu
  rcases List.mem_append.mp hu with hsrc | hpub
  · rcases List.mem_filterMap.mp hsrc with ⟨f, hf, heq⟩
    obtain ⟨_, _, hpath, _⟩ := sourceVerdict_some _ _ _ heq
    have hcode : codeExtensions.contains (strToLower (extnameStr f.path)) = true :=
      (List.mem_filter.mp hf).2
    refine ⟨?_, ?_, ?_, fun _ => ⟨f, hf, hpath⟩⟩
    · intro hb
      rw [hpath] at hb
      simp only [extnameStr] at hcode
      rw [hb] at hcode
      exact absurd hcode (by decide)
    · intro hb
      rw [hpath] at hb
      simp only [extnameStr] at hcode
      rw [hb] at hcode
      exact absurd hcode (by decide)
    · rw [hpath]
      exact code_ext_no_m4s f.path hcode
  · rcases List.mem_filterMap.mp hpub with ⟨q, _, heq⟩
    obtain ⟨hexc, _, _, hpath, _⟩ := publicVerdict_some _ _ _ heq
    simp only [publicExcluded, Bool.or_eq_false_iff] at hexc
    obtain ⟨⟨⟨h1, h2⟩, h3⟩, hm4⟩ := hexc
    refine ⟨?_, ?_, ?_, ?_⟩
    · intro hb
      rw [hpath] at hb
      rw [hb] at h1
      exact absurd h1 (by decide)
    · intro hb
      rw [hpath] at hb
      rw [hb] at h2
      exact absurd h2 (by decide)
    · rw [hpath]
      exact hm4
    · intro hseg
      rw [hpath] at hseg
      simp [hseg] at h3

theorem media_exclusion_scope_witness :
    basenameStr (UnusedFile.path ⟨"src/orphan2.ts", 2, FileType.util⟩) ≠ "robots.txt" ∧
    basenameStr (UnusedFile.path ⟨"src/orphan2.ts", 2, FileType.util⟩) ≠ "sitemap.xml" ∧
    strEndsWith (basenameStr (UnusedFile.path ⟨"src/orphan2.ts", 2, FileType.util⟩)) ".m4s" = false ∧
    (strIncludes (basenameStr (UnusedFile.path ⟨"src/orphan2.ts", 2, FileType.util⟩)) "segment_" = true →
      ∃ f ∈ sourceFilter [⟨"src/orphan2.ts", some "", some 2⟩],
        UnusedFile.path ⟨"src/orphan2.ts", 2, FileType.util⟩ = f.path) :=
  media_exclusion_scope [⟨"src/orphan2.ts", some "", some 2⟩] []
    ⟨"src/orphan2.ts", 2, FileType.util⟩ (by decide)

/-- C7: `getFileType` is exactly the first-match-wins evaluation of the rule
table in the order api, page, media, component, hook, context, type, style
with fallback `util` — so every path receives exactly one deterministic
category — and the ambiguous name `useModal.tsx` classifies as `hook`, not
`component`. -/
theorem classifier_first_match_precedence :
    (∀ p : String, getFileType p = firstMatchType classifierRules p) ∧
    getFileType "useModal.tsx" = FileType.hook :=
  ⟨fun _ => rfl, rfl⟩

/-- C8 (code bug): the two multi-segment members of `ignoredPaths` are in the
set, but traversal compares single readdir entry names against the set, so an
entry name can never equal `public/chunks` or `public/static`: files beneath
those directories ARE enumerated, while single-segment members such as
`node_modules` are pruned. -/
theorem public_chunk_dirs_not_pruned :
    ignoredPaths.contains "public/chunks" = true ∧
    ignoredPaths.contains "public/static" = true ∧
    getAllFilesFrom "public"
      [FsEntry.dir "chunks" [FsEntry.file "chunk1.js"],
       FsEntry.dir "static" [FsEntry.file "seg.m4s"]] =
      ["public/chunks/chunk1.js", "public/static/seg.m4s"] ∧
    getAllFilesFrom "root" [FsEntry.dir "node_modules" [FsEntry.file "x.js"]] = [] := by
  refine ⟨by decide, by decide, ?_, ?_⟩ <;> simp +decide [getAllFilesFrom]
